import Mathlib

/-!
# Verification of the trolleybus event bus

A shallow embedding of `trolleybus` (an in-process publish/subscribe event
bus) and proofs of its specified properties.

Modelling choices, mirroring the Python source:

* Event identifiers (`uuid.UUID`) are modelled as natural numbers; the
  `uuid.uuid4()` call performed once per event-type definition by `EventMeta`
  is modelled as drawing from a fresh-identifier supply (a counter).
* Handlers (Python callables) are identified by natural numbers; what a
  handler does when invoked is supplied separately by an environment
  `env : Nat → α → Except ε β`, where `Except.error` models the handler
  raising an exception.
* Python's `dict` is modelled as an association list with map semantics
  (`alookup` / `aupdate` / `aerase`); Python's `set` of listeners is
  modelled as a duplicate-free list whose order stands for the set's
  (arbitrary) iteration order.
* Each dispatch strategy returns, besides its result, the trace of handler
  invocations it performed (`invoked`) and the list of exceptions it passed
  to the logger (`logged`), so that the spec's "handler X is never invoked"
  and "the error is logged" clauses are statable.
-/

abbrev EventId := Nat
abbrev HandlerId := Nat

/-- Association-list lookup, modelling Python `dict.get` / `d[k]`. -/
def alookup {κ ν : Type} [DecidableEq κ] : List (κ × ν) → κ → Option ν
  | [], _ => none
  | kv :: rest, k => if kv.1 = k then some kv.2 else alookup rest k

/-- Remove a key, modelling Python `del d[k]` (on a duplicate-free map). -/
def aerase {κ ν : Type} [DecidableEq κ] : List (κ × ν) → κ → List (κ × ν)
  | [], _ => []
  | kv :: rest, k => if kv.1 = k then aerase rest k else kv :: aerase rest k

/-- Set a key to a value, modelling Python `d[k] = v`. -/
def aupdate {κ ν : Type} [DecidableEq κ] (m : List (κ × ν)) (k : κ) (v : ν) : List (κ × ν) :=
  (k, v) :: aerase m k

/-- The event bus state: `listeners` models `self.listeners`
(`Dict[uuid.UUID, Set[Callable]]`), `priorities` models `self._priorities`
(`Dict[Tuple[uuid.UUID, Callable], int]`). -/
structure EventBus where
  listeners : List (EventId × List HandlerId)
  priorities : List ((EventId × HandlerId) × Int)
deriving DecidableEq

/-- Identifier assigned to the built-in `OnStart` event type. -/
def onStartId : EventId := 0

/-- Identifier assigned to the built-in `OnStarted` event type. -/
def onStartedId : EventId := 1

/-- Identifier assigned to the built-in `OnExit` event type. -/
def onExitId : EventId := 2

/-- Display name of `OnStart` (`events.py`: `name = 'on-start'`). -/
def OnStart_name : String := "on-start"

/-- Display name of `OnStarted` (`events.py`: `name = 'on-stop'`). -/
def OnStarted_name : String := "on-stop"

/-- Display name of `OnExit` (`events.py`: `name = 'on-exit'`). -/
def OnExit_name : String := "on-exit"

/-- `EventBus.__init__`: pre-registers the three default events with empty
listener sets and an empty priority map. -/
def EventBus.init : EventBus :=
  { listeners := [(onStartId, []), (onStartedId, []), (onExitId, [])]
    priorities := [] }

/-- `EventBus.subscribe` (with a callback given): `setdefault` the listener
set for the event, add the callback to it (set semantics: no duplicate), and
record the priority. -/
def EventBus.subscribe (b : EventBus) (e : EventId) (c : HandlerId) (p : Int) : EventBus :=
  let bucket := (alookup b.listeners e).getD []
  let bucket' := if c ∈ bucket then bucket else bucket ++ [c]
  { listeners := aupdate b.listeners e bucket'
    priorities := aupdate b.priorities (e, c) p }

/-- `EventBus.unsubscribe`: if the event has a (non-empty) listener set
containing the callback, discard the callback and delete its priority
record; otherwise do nothing. -/
def EventBus.unsubscribe (b : EventBus) (e : EventId) (c : HandlerId) : EventBus :=
  match alookup b.listeners e with
  | none => b
  | some bucket =>
    if bucket ≠ [] ∧ c ∈ bucket then
      { listeners := aupdate b.listeners e (bucket.erase c)
        priorities := aerase b.priorities (e, c) }
    else b

/-- Ordering of `(priority, handler)` pairs by priority, the key
`operator.itemgetter(0)` passed to `sorted` in `_sort_listeners`. -/
def prioLE (x y : Int × HandlerId) : Prop := x.1 ≤ y.1

instance : DecidableRel prioLE := fun x y => Int.decLe x.1 y.1

instance : IsTotal (Int × HandlerId) prioLE := ⟨fun a b => Int.le_total a.1 b.1⟩

instance : IsTrans (Int × HandlerId) prioLE := ⟨fun _ _ _ h h' => le_trans h h'⟩

/-- The generator `((self._priorities[(event, l)], l) for l in listeners)`:
pair every listener with its recorded priority; `none` models the `KeyError`
raised when some listener has no priority record. -/
def attachPriorities (pr : List ((EventId × HandlerId) × Int)) (e : EventId) :
    List HandlerId → Option (List (Int × HandlerId))
  | [] => some []
  | c :: rest =>
    match alookup pr (e, c), attachPriorities pr e rest with
    | some p, some l => some ((p, c) :: l)
    | _, _ => none

/-- `EventBus._sort_listeners`: pair the event's listeners with their
priorities and sort ascending by priority. `none` models a `KeyError`
(unknown event identifier, or a listener with no priority record). -/
def EventBus.sort_listeners (b : EventBus) (e : EventId) : Option (List (Int × HandlerId)) :=
  match alookup b.listeners e with
  | none => none
  | some bucket => (attachPriorities b.priorities e bucket).map (List.insertionSort prioLE)

instance {ε α : Type} [DecidableEq ε] [DecidableEq α] : DecidableEq (Except ε α)
  | .error a, .error b =>
    if h : a = b then .isTrue (by rw [h]) else .isFalse (by simp [h])
  | .error _, .ok _ => .isFalse (by simp)
  | .ok _, .error _ => .isFalse (by simp)
  | .ok a, .ok b =>
    if h : a = b then .isTrue (by rw [h]) else .isFalse (by simp [h])

/-- Errors a dispatch call can surface to its caller. -/
inductive DispatchErr (ε : Type) where
  /-- An exception raised by a handler, propagated to the caller. -/
  | handler (ex : ε)
  /-- An uncaught `KeyError` from `_sort_listeners`. -/
  | keyError
  /-- `NoListenersError`, carrying the event's display name. -/
  | noListeners (name : String)
deriving DecidableEq

/-- Outcome of `broadcast`: the returned value or propagated error, the
trace of handler invocations, and the exceptions passed to the logger. -/
structure BroadcastOut (ε β : Type) where
  out : Except (DispatchErr ε) (List β)
  invoked : List HandlerId
  logged : List ε
deriving DecidableEq

/-- The `for` loop of `broadcast`: invoke each handler in order; a raised
exception is logged and re-raised, ending the loop; otherwise the result is
appended. -/
def broadcastLoop {ε α β : Type} (env : HandlerId → α → Except ε β) (payload : α) :
    List (Int × HandlerId) → BroadcastOut ε β
  | [] => ⟨.ok [], [], []⟩
  | (_, c) :: rest =>
    match env c payload with
    | .error ex => ⟨.error (.handler ex), [c], [ex]⟩
    | .ok r =>
      let o := broadcastLoop env payload rest
      ⟨o.out.map (r :: ·), c :: o.invoked, o.logged⟩

/-- `EventBus.broadcast`: return `[]` for an event identifier unknown to the
registry, otherwise sort the listeners and run them fail-fast. -/
def EventBus.broadcast {ε α β : Type} (env : HandlerId → α → Except ε β)
    (b : EventBus) (e : EventId) (payload : α) : BroadcastOut ε β :=
  match alookup b.listeners e with
  | none => ⟨.ok [], [], []⟩
  | some _ =>
    match b.sort_listeners e with
    | none => ⟨.error .keyError, [], []⟩
    | some pairs => broadcastLoop env payload pairs

/-- One entry of the `broadcast_nothrow` result list: `(error, True)` when
the handler raised, `(result, False)` when it returned. -/
def nothrowEntry {ε β : Type} : Except ε β → (ε ⊕ β) × Bool
  | .error ex => (.inl ex, true)
  | .ok r => (.inr r, false)

/-- Outcome of `broadcast_nothrow`: the returned entry list (or an uncaught
`KeyError`) and the trace of handler invocations. -/
structure NothrowOut (ε β : Type) where
  out : Except (DispatchErr ε) (List ((ε ⊕ β) × Bool))
  invoked : List HandlerId
deriving DecidableEq

/-- The `for` loop of `broadcast_nothrow`: invoke every handler in order,
capturing a raised exception as `(error, True)` and a returned value as
`(result, False)`. -/
def nothrowLoop {ε α β : Type} (env : HandlerId → α → Except ε β) (payload : α) :
    List (Int × HandlerId) → List ((ε ⊕ β) × Bool) × List HandlerId
  | [] => ([], [])
  | (_, c) :: rest =>
    let o := nothrowLoop env payload rest
    (nothrowEntry (env c payload) :: o.1, c :: o.2)

/-- `EventBus.broadcast_nothrow`: return `[]` for an unknown event
identifier, otherwise run every listener, never propagating their errors. -/
def EventBus.broadcast_nothrow {ε α β : Type} (env : HandlerId → α → Except ε β)
    (b : EventBus) (e : EventId) (payload : α) : NothrowOut ε β :=
  match alookup b.listeners e with
  | none => ⟨.ok [], []⟩
  | some _ =>
    match b.sort_listeners e with
    | none => ⟨.error .keyError, []⟩
    | some pairs =>
      let o := nothrowLoop env payload pairs
      ⟨.ok o.1, o.2⟩

/-- Outcome of `send_one`: the single handler's result or a propagated
error, and the trace of handler invocations. -/
structure SendOneOut (ε β : Type) where
  out : Except (DispatchErr ε) β
  invoked : List HandlerId
deriving DecidableEq

/-- `EventBus.send_one`: take the head of the sorted listener list; an
`IndexError` (empty list) or `KeyError` becomes `NoListenersError` carrying
the event's display name; the chosen handler is invoked outside that
`try`, so its error propagates as a handler failure. -/
def EventBus.send_one {ε α β : Type} (env : HandlerId → α → Except ε β)
    (b : EventBus) (e : EventId) (name : String) (payload : α) : SendOneOut ε β :=
  match b.sort_listeners e with
  | none => ⟨.error (.noListeners name), []⟩
  | some [] => ⟨.error (.noListeners name), []⟩
  | some ((_, c) :: _) =>
    match env c payload with
    | .error ex => ⟨.error (.handler ex), [c]⟩
    | .ok r => ⟨.ok r, [c]⟩

/-- Outcome of `send_any`: the first non-`None` result (or `none`, or a
propagated error), the invocation trace, and the logged exceptions. -/
structure SendAnyOut (ε β : Type) where
  out : Except (DispatchErr ε) (Option β)
  invoked : List HandlerId
  logged : List ε
deriving DecidableEq

/-- The `for` loop of `send_any`: invoke handlers in order until one
returns a non-`None` result; a raised exception is logged and re-raised. -/
def sendAnyLoop {ε α β : Type} (env : HandlerId → α → Except ε (Option β)) (payload : α) :
    List (Int × HandlerId) → SendAnyOut ε β
  | [] => ⟨.ok none, [], []⟩
  | (_, c) :: rest =>
    match env c payload with
    | .error ex => ⟨.error (.handler ex), [c], [ex]⟩
    | .ok (some r) => ⟨.ok (some r), [c], []⟩
    | .ok none =>
      let o := sendAnyLoop env payload rest
      ⟨o.out, c :: o.invoked, o.logged⟩

/-- `EventBus.send_any`: return `none` for an unknown event identifier,
otherwise run listeners in priority order until a non-`None` result. -/
def EventBus.send_any {ε α β : Type} (env : HandlerId → α → Except ε (Option β))
    (b : EventBus) (e : EventId) (payload : α) : SendAnyOut ε β :=
  match alookup b.listeners e with
  | none => ⟨.ok none, [], []⟩
  | some _ =>
    match b.sort_listeners e with
    | none => ⟨.error .keyError, [], []⟩
    | some pairs => sendAnyLoop env payload pairs

/-- The listener set recorded for an event identifier (empty when the
identifier is unknown to the registry). -/
def EventBus.bucketOf (b : EventBus) (e : EventId) : List HandlerId :=
  (alookup b.listeners e).getD []

/-- The registry invariant: a callable is in an event's listener set iff
the `(event, callable)` pair has a recorded priority. Stated over the
finite association lists so that it is decidable on concrete buses. -/
def EventBus.invariant (b : EventBus) : Prop :=
  (∀ kv ∈ b.listeners, ∀ c ∈ b.bucketOf kv.1, (alookup b.priorities (kv.1, c)).isSome) ∧
    (∀ pq ∈ b.priorities, pq.1.2 ∈ b.bucketOf pq.1.1)

instance (b : EventBus) : Decidable b.invariant := by
  unfold EventBus.invariant; infer_instance

/-- Listener sets hold no duplicates (Python `set` semantics). -/
def EventBus.nodupBuckets (b : EventBus) : Prop :=
  ∀ kv ∈ b.listeners, kv.2.Nodup

instance (b : EventBus) : Decidable b.nodupBuckets := by
  unfold EventBus.nodupBuckets; infer_instance

/-- An event type as produced by `EventMeta`: a definition-time identifier
and a display name. -/
structure EventType where
  event_id : EventId
  name : String
deriving DecidableEq

/-- `EventMeta.__new__`: defining an event type draws a fresh identifier.
The source's `uuid.uuid4()` is modelled as a fresh-identifier supply (a
counter), so each definition yields an identifier no earlier or later
definition shares. -/
def defineEvent (counter : Nat) (name : String) : EventType × Nat :=
  ({ event_id := counter, name := name }, counter + 1)

/-- A sequence of event-type definitions, threading the identifier
supply. -/
def defineEvents (counter : Nat) : List String → List EventType × Nat
  | [] => ([], counter)
  | n :: rest =>
    let (t, counter') := defineEvent counter n
    let (ts, counter'') := defineEvents counter' rest
    (t :: ts, counter'')

/-- A Stateful Subscriber Binder (`subscriber.Subscriber`) instance: the
handler identities of its bound `on_start` and `on_exit` methods, the
statically declared `(event, method, priority)` metadata its decorated
members carry, and the `(event, method)` pairs recorded during `on_start`
(the private `__subscriptions` list). -/
structure Subscriber where
  hStart : HandlerId
  hExit : HandlerId
  members : List (EventId × HandlerId × Int)
  subs : List (EventId × HandlerId)
deriving DecidableEq

/-- `Subscriber.__init__`: subscribe the bound `on_start` method to the
start event and the bound `on_exit` method to the exit event (both at the
default priority 50), with an empty recorded-subscription list. -/
def Subscriber.init (b : EventBus) (hStart hExit : HandlerId)
    (members : List (EventId × HandlerId × Int)) : Subscriber × EventBus :=
  ({ hStart := hStart, hExit := hExit, members := members, subs := [] },
    (b.subscribe onStartId hStart 50).subscribe onExitId hExit 50)

/-- One iteration of the `Subscriber.on_start` loop: subscribe a discovered
member carrying handler metadata and record the `(event, method)` pair. -/
def subStep (acc : Subscriber × EventBus) (m : EventId × HandlerId × Int) :
    Subscriber × EventBus :=
  ({ acc.1 with subs := acc.1.subs ++ [(m.1, m.2.1)] }, acc.2.subscribe m.1 m.2.1 m.2.2)

/-- The body of `Subscriber.on_start`: for each discovered member carrying
handler metadata, subscribe it and record the `(event, method)` pair. -/
def Subscriber.on_start (sb : Subscriber × EventBus) : Subscriber × EventBus :=
  sb.1.members.foldl subStep sb

/-- One iteration of the `Subscriber.on_exit` loop: unsubscribe one recorded
`(event, method)` pair. -/
def unsubStep (acc : EventBus) (em : EventId × HandlerId) : EventBus :=
  acc.unsubscribe em.1 em.2

/-- The body of `Subscriber.on_exit`: unsubscribe every recorded
`(event, method)` pair. -/
def Subscriber.on_exit (sb : Subscriber × EventBus) : EventBus :=
  sb.1.subs.foldl unsubStep sb.2

/-- The start-then-exit lifecycle of a `Subscriber`: construct it on the
bus, fire its `on_start` handler, then fire its `on_exit` handler, and
return the final bus. -/
def Subscriber.lifecycle (b : EventBus) (hStart hExit : HandlerId)
    (members : List (EventId × HandlerId × Int)) : EventBus :=
  Subscriber.on_exit (Subscriber.on_start (Subscriber.init b hStart hExit members))

/-- One mutation of the subscription registry through the public API. -/
inductive BusOp where
  | sub (e : EventId) (c : HandlerId) (p : Int)
  | unsub (e : EventId) (c : HandlerId)

/-- Apply one registry mutation. -/
def applyOp (b : EventBus) : BusOp → EventBus
  | .sub e c p => b.subscribe e c p
  | .unsub e c => b.unsubscribe e c

/-- The bus reached from a fresh `EventBus` by a sequence of subscribe and
unsubscribe calls. -/
def applyOps (ops : List BusOp) : EventBus :=
  ops.foldl applyOp EventBus.init

section AssocLemmas

variable {κ ν : Type} [DecidableEq κ]

theorem alookup_mem {m : List (κ × ν)} {k : κ} {v : ν} (h : alookup m k = some v) :
    (k, v) ∈ m := by
  induction m with
  | nil => simp [alookup] at h
  | cons kv rest ih =>
    by_cases hk : kv.1 = k
    · simp only [alookup, if_pos hk, Option.some.injEq] at h
      have : (k, v) = kv := by
        cases kv
        simp only [Prod.mk.injEq]
        exact ⟨hk.symm, h.symm⟩
      rw [this]
      exact List.mem_cons_self _ _
    · simp only [alookup, if_neg hk] at h
      exact List.mem_cons_of_mem _ (ih h)

theorem alookup_aerase_self (m : List (κ × ν)) (k : κ) : alookup (aerase m k) k = none := by
  induction m with
  | nil => rfl
  | cons kv rest ih =>
    by_cases hk : kv.1 = k
    · rw [aerase, if_pos hk]
      exact ih
    · rw [aerase, if_neg hk, alookup, if_neg hk]
      exact ih

theorem alookup_aerase_ne {k k' : κ} (m : List (κ × ν)) (h : k' ≠ k) :
    alookup (aerase m k) k' = alookup m k' := by
  induction m with
  | nil => rfl
  | cons kv rest ih =>
    by_cases hk : kv.1 = k
    · rw [aerase, if_pos hk, ih, alookup, if_neg (fun hc : kv.1 = k' => h (hc ▸ hk))]
    · rw [aerase, if_neg hk, alookup, alookup]
      by_cases hk' : kv.1 = k'
      · rw [if_pos hk', if_pos hk']
      · rw [if_neg hk', if_neg hk', ih]

theorem alookup_aupdate_self (m : List (κ × ν)) (k : κ) (v : ν) :
    alookup (aupdate m k v) k = some v := by
  simp [aupdate, alookup]

theorem alookup_aupdate_ne {k k' : κ} (m : List (κ × ν)) (v : ν) (h : k' ≠ k) :
    alookup (aupdate m k v) k' = alookup m k' := by
  rw [aupdate, alookup, if_neg (fun hc : k = k' => h hc.symm)]
  exact alookup_aerase_ne m h

theorem mem_of_mem_aerase {m : List (κ × ν)} {k : κ} {kv : κ × ν}
    (h : kv ∈ aerase m k) : kv ∈ m := by
  induction m with
  | nil => exact absurd h (List.not_mem_nil _)
  | cons kv' rest ih =>
    by_cases hk : kv'.1 = k
    · rw [aerase, if_pos hk] at h
      exact List.mem_cons_of_mem _ (ih h)
    · rw [aerase, if_neg hk] at h
      rcases List.mem_cons.mp h with h | h
      · exact h ▸ List.mem_cons_self _ _
      · exact List.mem_cons_of_mem _ (ih h)

theorem mem_aupdate {m : List (κ × ν)} {k : κ} {v : ν} {kv : κ × ν}
    (h : kv ∈ aupdate m k v) : kv = (k, v) ∨ kv ∈ m := by
  rcases List.mem_cons.mp h with h | h
  · exact .inl h
  · exact .inr (mem_of_mem_aerase h)

end AssocLemmas

theorem bucketOf_subscribe_self (b : EventBus) (e : EventId) (c : HandlerId) (p : Int) :
    (b.subscribe e c p).bucketOf e =
      (if c ∈ b.bucketOf e then b.bucketOf e else b.bucketOf e ++ [c]) := by
  simp [EventBus.subscribe, EventBus.bucketOf, alookup_aupdate_self]

theorem bucketOf_subscribe_ne (b : EventBus) {e e' : EventId} (c : HandlerId) (p : Int)
    (h : e' ≠ e) : (b.subscribe e c p).bucketOf e' = b.bucketOf e' := by
  simp [EventBus.subscribe, EventBus.bucketOf, alookup_aupdate_ne _ _ h]

theorem mem_bucketOf_subscribe_self (b : EventBus) (e : EventId) (c : HandlerId) (p : Int) :
    c ∈ (b.subscribe e c p).bucketOf e := by
  rw [bucketOf_subscribe_self]
  by_cases hc : c ∈ b.bucketOf e <;> simp [hc]

theorem mem_bucketOf_subscribe (b : EventBus) (e : EventId) (c : HandlerId) (p : Int)
    {e' : EventId} {d : HandlerId} (h : d ∈ b.bucketOf e') :
    d ∈ (b.subscribe e c p).bucketOf e' := by
  by_cases he : e' = e
  · subst he
    rw [bucketOf_subscribe_self]
    by_cases hc : c ∈ b.bucketOf e' <;> simp [hc, h]
  · rwa [bucketOf_subscribe_ne _ _ _ he]

theorem unsubscribe_none {b : EventBus} {e : EventId} (c : HandlerId)
    (hl : alookup b.listeners e = none) : b.unsubscribe e c = b := by
  rw [EventBus.unsubscribe, hl]

theorem unsubscribe_pos {b : EventBus} {e : EventId} {c : HandlerId}
    {bucket : List HandlerId} (hl : alookup b.listeners e = some bucket)
    (hg : bucket ≠ [] ∧ c ∈ bucket) :
    b.unsubscribe e c =
      { listeners := aupdate b.listeners e (bucket.erase c)
        priorities := aerase b.priorities (e, c) } := by
  rw [EventBus.unsubscribe, hl]
  exact if_pos hg

theorem unsubscribe_neg {b : EventBus} {e : EventId} {c : HandlerId}
    {bucket : List HandlerId} (hl : alookup b.listeners e = some bucket)
    (hg : ¬(bucket ≠ [] ∧ c ∈ bucket)) : b.unsubscribe e c = b := by
  rw [EventBus.unsubscribe, hl]
  exact if_neg hg

theorem bucketOf_unsubscribe_ne (b : EventBus) {e e' : EventId} (c : HandlerId)
    (h : e' ≠ e) : (b.unsubscribe e c).bucketOf e' = b.bucketOf e' := by
  rcases hl : alookup b.listeners e with _ | bucket
  · rw [unsubscribe_none c hl]
  · by_cases hg : bucket ≠ [] ∧ c ∈ bucket
    · rw [unsubscribe_pos hl hg]
      simp only [EventBus.bucketOf, alookup_aupdate_ne _ _ h]
    · rw [unsubscribe_neg hl hg]

theorem mem_bucketOf_unsubscribe (b : EventBus) {e e' : EventId} {c d : HandlerId}
    (hne : d ≠ c ∨ e' ≠ e) (h : d ∈ b.bucketOf e') :
    d ∈ (b.unsubscribe e c).bucketOf e' := by
  rcases hne with hne | hne
  · by_cases he : e' = e
    · subst he
      rcases hl : alookup b.listeners e' with _ | bucket
      · rwa [unsubscribe_none c hl]
      · by_cases hg : bucket ≠ [] ∧ c ∈ bucket
        · rw [unsubscribe_pos hl hg]
          simp only [EventBus.bucketOf, alookup_aupdate_self, Option.getD_some]
          have hb : b.bucketOf e' = bucket := by rw [EventBus.bucketOf, hl, Option.getD_some]
          exact (List.mem_erase_of_ne hne).mpr (hb ▸ h)
        · rwa [unsubscribe_neg hl hg]
    · rwa [bucketOf_unsubscribe_ne _ _ he]
  · rwa [bucketOf_unsubscribe_ne _ _ hne]

theorem mem_bucketOf_of_unsubscribe (b : EventBus) {e e' : EventId} {c d : HandlerId}
    (h : d ∈ (b.unsubscribe e c).bucketOf e') : d ∈ b.bucketOf e' := by
  by_cases he : e' = e
  · subst he
    rcases hl : alookup b.listeners e' with _ | bucket
    · rwa [unsubscribe_none c hl] at h
    · by_cases hg : bucket ≠ [] ∧ c ∈ bucket
      · rw [unsubscribe_pos hl hg] at h
        simp only [EventBus.bucketOf, alookup_aupdate_self, Option.getD_some] at h
        rw [EventBus.bucketOf, hl, Option.getD_some]
        exact List.mem_of_mem_erase h
      · rwa [unsubscribe_neg hl hg] at h
  · rwa [bucketOf_unsubscribe_ne _ _ he] at h

theorem nodup_bucketOf {b : EventBus} (hnd : b.nodupBuckets) (e : EventId) :
    (b.bucketOf e).Nodup := by
  rw [EventBus.bucketOf]
  rcases hl : alookup b.listeners e with _ | bucket
  · exact List.nodup_nil
  · exact hnd _ (alookup_mem hl)

theorem nodupBuckets_subscribe {b : EventBus} (hnd : b.nodupBuckets)
    (e : EventId) (c : HandlerId) (p : Int) : (b.subscribe e c p).nodupBuckets := by
  intro kv hkv
  rcases mem_aupdate hkv with hkv | hkv
  · subst hkv
    by_cases hc : c ∈ (alookup b.listeners e).getD []
    · simp only [if_pos hc]
      exact nodup_bucketOf hnd e
    · simp only [if_neg hc]
      exact List.Nodup.append (nodup_bucketOf hnd e) (List.nodup_singleton c)
        (by simpa using hc)
  · exact hnd _ hkv

theorem nodupBuckets_unsubscribe {b : EventBus} (hnd : b.nodupBuckets)
    (e : EventId) (c : HandlerId) : (b.unsubscribe e c).nodupBuckets := by
  rcases hl : alookup b.listeners e with _ | bucket
  · rw [unsubscribe_none c hl]
    exact hnd
  · by_cases hg : bucket ≠ [] ∧ c ∈ bucket
    · rw [unsubscribe_pos hl hg]
      intro kv hkv
      rcases mem_aupdate hkv with hkv | hkv
      · subst hkv
        exact (hnd _ (alookup_mem hl)).erase c
      · exact hnd _ hkv
    · rw [unsubscribe_neg hl hg]
      exact hnd

theorem not_mem_bucketOf_unsubscribe {b : EventBus} (hnd : b.nodupBuckets)
    (e : EventId) (c : HandlerId) : c ∉ (b.unsubscribe e c).bucketOf e := by
  rcases hl : alookup b.listeners e with _ | bucket
  · rw [unsubscribe_none c hl]
    intro hc
    rw [EventBus.bucketOf, hl] at hc
    exact absurd hc (List.not_mem_nil _)
  · by_cases hg : bucket ≠ [] ∧ c ∈ bucket
    · rw [unsubscribe_pos hl hg]
      simp only [EventBus.bucketOf, alookup_aupdate_self, Option.getD_some]
      exact (hnd _ (alookup_mem hl)).not_mem_erase
    · rw [unsubscribe_neg hl hg]
      intro hc
      rw [EventBus.bucketOf, hl, Option.getD_some] at hc
      exact hg ⟨List.ne_nil_of_mem hc, hc⟩

theorem attachPriorities_isSome {pr : List ((EventId × HandlerId) × Int)} {e : EventId}
    {bucket : List HandlerId} (h : ∀ c ∈ bucket, (alookup pr (e, c)).isSome) :
    ∃ l, attachPriorities pr e bucket = some l := by
  induction bucket with
  | nil => exact ⟨[], rfl⟩
  | cons c rest ih =>
    rcases Option.isSome_iff_exists.mp (h c (List.mem_cons_self _ _)) with ⟨p, hp⟩
    rcases ih (fun d hd => h d (List.mem_cons_of_mem _ hd)) with ⟨l, hl⟩
    exact ⟨(p, c) :: l, by rw [attachPriorities, hp, hl]⟩

theorem attachPriorities_mem {pr : List ((EventId × HandlerId) × Int)} {e : EventId}
    {bucket : List HandlerId} {l : List (Int × HandlerId)}
    (h : attachPriorities pr e bucket = some l) {p : Int} {c : HandlerId} :
    (p, c) ∈ l ↔ c ∈ bucket ∧ alookup pr (e, c) = some p := by
  induction bucket generalizing l with
  | nil =>
    rw [attachPriorities, Option.some.injEq] at h
    subst h
    simp
  | cons d rest ih =>
    rw [attachPriorities] at h
    rcases hd : alookup pr (e, d) with _ | q <;> rw [hd] at h
    · exact absurd h (by simp)
    · rcases hrest : attachPriorities pr e rest with _ | l' <;> rw [hrest] at h
      · exact absurd h (by simp)
      · rw [Option.some.injEq] at h
        subst h
        constructor
        · intro hm
          rcases List.mem_cons.mp hm with hm | hm
          · rw [Prod.mk.injEq] at hm
            exact ⟨hm.2 ▸ List.mem_cons_self _ _, hm.2 ▸ hm.1 ▸ hd⟩
          · rcases (ih hrest).mp hm with ⟨h1, h2⟩
            exact ⟨List.mem_cons_of_mem _ h1, h2⟩
        · rintro ⟨h1, h2⟩
          rcases List.mem_cons.mp h1 with h1 | h1
          · subst h1
            rw [hd, Option.some.injEq] at h2
            exact h2 ▸ List.mem_cons_self _ _
          · exact List.mem_cons_of_mem _ ((ih hrest).mpr ⟨h1, h2⟩)

theorem attachPriorities_map_snd {pr : List ((EventId × HandlerId) × Int)} {e : EventId}
    {bucket : List HandlerId} {l : List (Int × HandlerId)}
    (h : attachPriorities pr e bucket = some l) : l.map Prod.snd = bucket := by
  induction bucket generalizing l with
  | nil =>
    rw [attachPriorities, Option.some.injEq] at h
    subst h
    rfl
  | cons d rest ih =>
    rw [attachPriorities] at h
    rcases hd : alookup pr (e, d) with _ | q <;> rw [hd] at h
    · exact absurd h (by simp)
    · rcases hrest : attachPriorities pr e rest with _ | l' <;> rw [hrest] at h
      · exact absurd h (by simp)
      · rw [Option.some.injEq] at h
        subst h
        rw [List.map_cons, ih hrest]

theorem sort_listeners_none_eq {b : EventBus} {e : EventId}
    (hl : alookup b.listeners e = none) : b.sort_listeners e = none := by
  rw [EventBus.sort_listeners, hl]

theorem sort_listeners_some_eq {b : EventBus} {e : EventId} {bucket : List HandlerId}
    (hl : alookup b.listeners e = some bucket) :
    b.sort_listeners e =
      (attachPriorities b.priorities e bucket).map (List.insertionSort prioLE) := by
  rw [EventBus.sort_listeners, hl]

theorem sort_listeners_eq {b : EventBus} {e : EventId} {bucket : List HandlerId}
    {pl : List (Int × HandlerId)} (hl : alookup b.listeners e = some bucket)
    (ha : attachPriorities b.priorities e bucket = some pl) :
    b.sort_listeners e = some (List.insertionSort prioLE pl) := by
  rw [sort_listeners_some_eq hl, ha, Option.map_some']

theorem sort_listeners_lookup {b : EventBus} {e : EventId} {l : List (Int × HandlerId)}
    (h : b.sort_listeners e = some l) : ∃ bucket, alookup b.listeners e = some bucket := by
  rcases hl : alookup b.listeners e with _ | bucket
  · rw [sort_listeners_none_eq hl] at h
    exact absurd h (by simp)
  · exact ⟨bucket, rfl⟩

theorem sort_listeners_attach {b : EventBus} {e : EventId} {l : List (Int × HandlerId)}
    (h : b.sort_listeners e = some l) :
    ∃ bucket pl, alookup b.listeners e = some bucket ∧
      attachPriorities b.priorities e bucket = some pl ∧
      l = List.insertionSort prioLE pl := by
  rcases sort_listeners_lookup h with ⟨bucket, hl⟩
  rw [sort_listeners_some_eq hl] at h
  rcases ha : attachPriorities b.priorities e bucket with _ | pl <;> rw [ha] at h
  · exact absurd h (by simp)
  · rw [Option.map_some', Option.some.injEq] at h
    exact ⟨bucket, pl, hl, ha, h.symm⟩

theorem sort_listeners_sorted {b : EventBus} {e : EventId} {l : List (Int × HandlerId)}
    (h : b.sort_listeners e = some l) : l.Sorted prioLE := by
  rcases sort_listeners_attach h with ⟨bucket, pl, _, _, hs⟩
  exact hs ▸ List.sorted_insertionSort prioLE pl

theorem sort_listeners_mem {b : EventBus} {e : EventId} {l : List (Int × HandlerId)}
    (h : b.sort_listeners e = some l) {p : Int} {c : HandlerId} :
    (p, c) ∈ l ↔ c ∈ b.bucketOf e ∧ alookup b.priorities (e, c) = some p := by
  rcases sort_listeners_attach h with ⟨bucket, pl, hl, ha, hs⟩
  subst hs
  rw [(List.perm_insertionSort prioLE pl).mem_iff, attachPriorities_mem ha,
    EventBus.bucketOf, hl, Option.getD_some]

theorem sort_listeners_map_snd_perm {b : EventBus} {e : EventId}
    {l : List (Int × HandlerId)} (h : b.sort_listeners e = some l) :
    (l.map Prod.snd).Perm (b.bucketOf e) := by
  rcases sort_listeners_attach h with ⟨bucket, pl, hl, ha, hs⟩
  subst hs
  rw [EventBus.bucketOf, hl, Option.getD_some]
  exact (attachPriorities_map_snd ha) ▸ (List.perm_insertionSort prioLE pl).map Prod.snd

theorem sort_listeners_of_invariant {b : EventBus} (hinv : b.invariant) {e : EventId}
    {bucket : List HandlerId} (hl : alookup b.listeners e = some bucket) :
    ∃ l, b.sort_listeners e = some l := by
  have hall : ∀ c ∈ bucket, (alookup b.priorities (e, c)).isSome := by
    intro c hc
    have hcb : c ∈ b.bucketOf e := by
      rw [EventBus.bucketOf, hl, Option.getD_some]
      exact hc
    exact hinv.1 (e, bucket) (alookup_mem hl) c hcb
  rcases attachPriorities_isSome hall with ⟨pl, hpl⟩
  exact ⟨_, sort_listeners_eq hl hpl⟩

theorem sort_listeners_nil {b : EventBus} {e : EventId}
    (h : b.sort_listeners e = some []) : b.bucketOf e = [] := by
  have := sort_listeners_map_snd_perm h
  exact (List.Perm.nil_eq (by simpa using this)).symm

/-- The handler `c1` occurs strictly before any occurrence of `c2` in the
trace `tr`. -/
def invokedBefore (tr : List HandlerId) (c1 c2 : HandlerId) : Prop :=
  ∀ t₁ t₂, tr = t₁ ++ c2 :: t₂ → c1 ∈ t₁

theorem invokedBefore_nil (c1 c2 : HandlerId) : invokedBefore [] c1 c2 := by
  intro t₁ t₂ h
  exact absurd h.symm (List.append_ne_nil_of_right_ne_nil _ (List.cons_ne_nil _ _))

theorem invokedBefore_of_eq_append {full tr t : List HandlerId} {c1 c2 : HandlerId}
    (he : full = tr ++ t) (h : invokedBefore full c1 c2) : invokedBefore tr c1 c2 := by
  intro t₁ t₂ ht
  exact h t₁ (t₂ ++ t) (by rw [he, ht, List.append_assoc, List.cons_append])

theorem broadcastLoop_ok {ε α β : Type} {env : HandlerId → α → Except ε β} {payload : α}
    {pairs : List (Int × HandlerId)} (g : Int × HandlerId → β)
    (h : ∀ pc ∈ pairs, env pc.2 payload = .ok (g pc)) :
    broadcastLoop env payload pairs =
      ⟨.ok (pairs.map g), pairs.map Prod.snd, []⟩ := by
  induction pairs with
  | nil => rfl
  | cons hd tl ih =>
    rcases hd with ⟨q, c⟩
    have hc := h (q, c) (List.mem_cons_self _ _)
    simp only [broadcastLoop, hc, ih (fun pc hpc => h pc (List.mem_cons_of_mem _ hpc)),
      List.map_cons, Except.map]

theorem broadcastLoop_error {ε α β : Type} {env : HandlerId → α → Except ε β} {payload : α}
    {l₁ l₂ : List (Int × HandlerId)} {p : Int} {c : HandlerId} {ex : ε}
    (h1 : ∀ pc ∈ l₁, ∃ r, env pc.2 payload = .ok r) (hc : env c payload = .error ex) :
    broadcastLoop env payload (l₁ ++ (p, c) :: l₂) =
      ⟨.error (.handler ex), l₁.map Prod.snd ++ [c], [ex]⟩ := by
  induction l₁ with
  | nil => simp only [List.nil_append, broadcastLoop, hc, List.map_nil]
  | cons hd tl ih =>
    rcases hd with ⟨q, d⟩
    rcases h1 (q, d) (List.mem_cons_self _ _) with ⟨r, hr⟩
    simp only [List.cons_append, broadcastLoop, hr, List.append_eq,
      ih (fun pc hpc => h1 pc (List.mem_cons_of_mem _ hpc)), List.map_cons, Except.map]

theorem broadcastLoop_invoked {ε α β : Type} {env : HandlerId → α → Except ε β}
    {payload : α} (pairs : List (Int × HandlerId)) :
    ∃ t, pairs.map Prod.snd = (broadcastLoop env payload pairs).invoked ++ t := by
  induction pairs with
  | nil => exact ⟨[], rfl⟩
  | cons hd tl ih =>
    rcases hd with ⟨q, c⟩
    rcases henv : env c payload with ex | r
    · exact ⟨tl.map Prod.snd, by simp [broadcastLoop, henv]⟩
    · rcases ih with ⟨t, ht⟩
      exact ⟨t, by simp [broadcastLoop, henv, ht]⟩

theorem nothrowLoop_eq {ε α β : Type} (env : HandlerId → α → Except ε β) (payload : α)
    (pairs : List (Int × HandlerId)) :
    nothrowLoop env payload pairs =
      (pairs.map (fun pc => nothrowEntry (env pc.2 payload)), pairs.map Prod.snd) := by
  induction pairs with
  | nil => rfl
  | cons hd tl ih =>
    rcases hd with ⟨q, c⟩
    simp only [nothrowLoop, ih, List.map_cons]

theorem sendAnyLoop_none {ε α β : Type} {env : HandlerId → α → Except ε (Option β)}
    {payload : α} {pairs : List (Int × HandlerId)}
    (h : ∀ pc ∈ pairs, env pc.2 payload = .ok none) :
    sendAnyLoop env payload pairs = ⟨.ok none, pairs.map Prod.snd, []⟩ := by
  induction pairs with
  | nil => rfl
  | cons hd tl ih =>
    rcases hd with ⟨q, c⟩
    have hc := h (q, c) (List.mem_cons_self _ _)
    simp only [sendAnyLoop, hc, ih (fun pc hpc => h pc (List.mem_cons_of_mem _ hpc)),
      List.map_cons]

theorem sendAnyLoop_found {ε α β : Type} {env : HandlerId → α → Except ε (Option β)}
    {payload : α} {l₁ l₂ : List (Int × HandlerId)} {p : Int} {c : HandlerId} {r : β}
    (h1 : ∀ pc ∈ l₁, env pc.2 payload = .ok none) (hc : env c payload = .ok (some r)) :
    sendAnyLoop env payload (l₁ ++ (p, c) :: l₂) =
      ⟨.ok (some r), l₁.map Prod.snd ++ [c], []⟩ := by
  induction l₁ with
  | nil => simp only [List.nil_append, sendAnyLoop, hc, List.map_nil]
  | cons hd tl ih =>
    rcases hd with ⟨q, d⟩
    have hr := h1 (q, d) (List.mem_cons_self _ _)
    simp only [List.cons_append, sendAnyLoop, hr, List.append_eq,
      ih (fun pc hpc => h1 pc (List.mem_cons_of_mem _ hpc)), List.map_cons]

theorem sendAnyLoop_error {ε α β : Type} {env : HandlerId → α → Except ε (Option β)}
    {payload : α} {l₁ l₂ : List (Int × HandlerId)} {p : Int} {c : HandlerId} {ex : ε}
    (h1 : ∀ pc ∈ l₁, env pc.2 payload = .ok none) (hc : env c payload = .error ex) :
    sendAnyLoop env payload (l₁ ++ (p, c) :: l₂) =
      ⟨.error (.handler ex), l₁.map Prod.snd ++ [c], [ex]⟩ := by
  induction l₁ with
  | nil => simp only [List.nil_append, sendAnyLoop, hc, List.map_nil]
  | cons hd tl ih =>
    rcases hd with ⟨q, d⟩
    have hr := h1 (q, d) (List.mem_cons_self _ _)
    simp only [List.cons_append, sendAnyLoop, hr, List.append_eq,
      ih (fun pc hpc => h1 pc (List.mem_cons_of_mem _ hpc)), List.map_cons]

theorem sendAnyLoop_invoked {ε α β : Type} {env : HandlerId → α → Except ε (Option β)}
    {payload : α} (pairs : List (Int × HandlerId)) :
    ∃ t, pairs.map Prod.snd = (sendAnyLoop env payload pairs).invoked ++ t := by
  induction pairs with
  | nil => exact ⟨[], rfl⟩
  | cons hd tl ih =>
    rcases hd with ⟨q, c⟩
    rcases henv : env c payload with ex | r
    · exact ⟨tl.map Prod.snd, by simp [sendAnyLoop, henv]⟩
    · rcases r with _ | r
      · rcases ih with ⟨t, ht⟩
        exact ⟨t, by simp [sendAnyLoop, henv, ht]⟩
      · exact ⟨tl.map Prod.snd, by simp [sendAnyLoop, henv]⟩

theorem broadcast_none {ε α β : Type} {env : HandlerId → α → Except ε β} {b : EventBus}
    {e : EventId} {payload : α} (hl : alookup b.listeners e = none) :
    b.broadcast env e payload = ⟨.ok [], [], []⟩ := by
  rw [EventBus.broadcast, hl]

theorem broadcast_eq_loop {ε α β : Type} {env : HandlerId → α → Except ε β} {b : EventBus}
    {e : EventId} {payload : α} {pairs : List (Int × HandlerId)}
    (hs : b.sort_listeners e = some pairs) :
    b.broadcast env e payload = broadcastLoop env payload pairs := by
  rcases sort_listeners_lookup hs with ⟨bucket, hl⟩
  rw [EventBus.broadcast]
  split
  · simp_all
  · split <;> simp_all

theorem broadcast_nothrow_none {ε α β : Type} {env : HandlerId → α → Except ε β}
    {b : EventBus} {e : EventId} {payload : α} (hl : alookup b.listeners e = none) :
    b.broadcast_nothrow env e payload = ⟨.ok [], []⟩ := by
  rw [EventBus.broadcast_nothrow, hl]

theorem broadcast_nothrow_eq_loop {ε α β : Type} {env : HandlerId → α → Except ε β}
    {b : EventBus} {e : EventId} {payload : α} {pairs : List (Int × HandlerId)}
    (hs : b.sort_listeners e = some pairs) :
    b.broadcast_nothrow env e payload =
      ⟨.ok (nothrowLoop env payload pairs).1, (nothrowLoop env payload pairs).2⟩ := by
  rcases sort_listeners_lookup hs with ⟨bucket, hl⟩
  rw [EventBus.broadcast_nothrow]
  split
  · simp_all
  · split <;> simp_all

theorem send_any_none {ε α β : Type} {env : HandlerId → α → Except ε (Option β)}
    {b : EventBus} {e : EventId} {payload : α} (hl : alookup b.listeners e = none) :
    b.send_any env e payload = ⟨.ok none, [], []⟩ := by
  rw [EventBus.send_any, hl]

theorem send_any_eq_loop {ε α β : Type} {env : HandlerId → α → Except ε (Option β)}
    {b : EventBus} {e : EventId} {payload : α} {pairs : List (Int × HandlerId)}
    (hs : b.sort_listeners e = some pairs) :
    b.send_any env e payload = sendAnyLoop env payload pairs := by
  rcases sort_listeners_lookup hs with ⟨bucket, hl⟩
  rw [EventBus.send_any]
  split
  · simp_all
  · split <;> simp_all

theorem send_one_noListeners {ε α β : Type} {env : HandlerId → α → Except ε β}
    {b : EventBus} {e : EventId} {name : String} {payload : α}
    (hs : b.sort_listeners e = none ∨ b.sort_listeners e = some []) :
    b.send_one env e name payload = ⟨.error (.noListeners name), []⟩ := by
  rw [EventBus.send_one]
  rcases hs with hs | hs <;> rw [hs]

theorem send_one_eq {ε α β : Type} {env : HandlerId → α → Except ε β}
    {b : EventBus} {e : EventId} {name : String} {payload : α} {p : Int} {c : HandlerId}
    {rest : List (Int × HandlerId)} (hs : b.sort_listeners e = some ((p, c) :: rest)) :
    b.send_one env e name payload =
      (match env c payload with
        | .error ex => ⟨.error (.handler ex), [c]⟩
        | .ok r => ⟨.ok r, [c]⟩) := by
  rw [EventBus.send_one, hs]

theorem sorted_map_snd_before {l : List (Int × HandlerId)} (hs : l.Sorted prioLE)
    {p1 p2 : Int} {c1 c2 : HandlerId} (h1 : (p1, c1) ∈ l)
    (h2 : ∀ q, (q, c2) ∈ l → q = p2) (hlt : p1 < p2) :
    invokedBefore (l.map Prod.snd) c1 c2 := by
  induction l with
  | nil => exact absurd h1 (List.not_mem_nil _)
  | cons hd tl ih =>
    intro t₁ t₂ ht
    rw [List.map_cons] at ht
    rcases t₁ with _ | ⟨a, t₁'⟩
    · rw [List.nil_append] at ht
      rw [List.cons.injEq] at ht
      exfalso
      have hd2 : hd.2 = c2 := ht.1
      have hq : hd.1 = p2 := h2 hd.1 (by
        have : hd = (hd.1, c2) := by rw [← hd2]
        exact this ▸ List.mem_cons_self _ _)
      rcases List.mem_cons.mp h1 with h1 | h1
      · have hp : p1 = p2 := (congrArg Prod.fst h1).trans hq
        exact absurd (hp ▸ hlt) (lt_irrefl p2)
      · have hle : prioLE hd (p1, c1) := (List.sorted_cons.mp hs).1 _ h1
        rw [prioLE, hq] at hle
        exact absurd (lt_of_le_of_lt hle hlt) (lt_irrefl p2)
    · rw [List.cons_append, List.cons.injEq] at ht
      rcases List.mem_cons.mp h1 with h1 | h1
      · have : c1 = a := (congrArg Prod.snd h1).trans ht.1
        exact this ▸ List.mem_cons_self _ _
      · have : c1 ∈ t₁' :=
          ih (List.sorted_cons.mp hs).2 h1
            (fun q hq => h2 q (List.mem_cons_of_mem _ hq)) t₁' t₂ ht.2
        exact List.mem_cons_of_mem _ this


theorem mem_aerase_ne {κ ν : Type} [DecidableEq κ] {m : List (κ × ν)} {k : κ}
    {kv : κ × ν} (h : kv ∈ aerase m k) : kv.1 ≠ k := by
  induction m with
  | nil => exact absurd h (List.not_mem_nil _)
  | cons kv' rest ih =>
    by_cases hk : kv'.1 = k
    · rw [aerase, if_pos hk] at h
      exact ih h
    · rw [aerase, if_neg hk] at h
      rcases List.mem_cons.mp h with h | h
      · exact h ▸ hk
      · exact ih h

theorem bucketOf_mk_update_self (b : EventBus) (e : EventId) (bucket' : List HandlerId)
    (pr : List ((EventId × HandlerId) × Int)) :
    (EventBus.bucketOf { listeners := aupdate b.listeners e bucket', priorities := pr } e)
      = bucket' := by
  simp [EventBus.bucketOf, alookup_aupdate_self]

theorem bucketOf_mk_update_ne (b : EventBus) {e e' : EventId} (bucket' : List HandlerId)
    (pr : List ((EventId × HandlerId) × Int)) (h : e' ≠ e) :
    (EventBus.bucketOf { listeners := aupdate b.listeners e bucket', priorities := pr } e')
      = b.bucketOf e' := by
  simp [EventBus.bucketOf, alookup_aupdate_ne _ _ h]

theorem invariant_iff {b : EventBus} (hinv : b.invariant) (e : EventId) (c : HandlerId) :
    c ∈ b.bucketOf e ↔ (alookup b.priorities (e, c)).isSome := by
  constructor
  · intro hc
    rcases hl : alookup b.listeners e with _ | bucket
    · rw [EventBus.bucketOf, hl] at hc
      exact absurd hc (List.not_mem_nil _)
    · exact hinv.1 (e, bucket) (alookup_mem hl) c hc
  · intro hp
    rcases Option.isSome_iff_exists.mp hp with ⟨p, hp⟩
    exact hinv.2 ((e, c), p) (alookup_mem hp)

theorem subscribe_priorities (b : EventBus) (e : EventId) (c : HandlerId) (p : Int) :
    (b.subscribe e c p).priorities = aupdate b.priorities (e, c) p := rfl

theorem subscribe_listeners (b : EventBus) (e : EventId) (c : HandlerId) (p : Int) :
    (b.subscribe e c p).listeners =
      aupdate b.listeners e
        (if c ∈ (alookup b.listeners e).getD [] then (alookup b.listeners e).getD []
          else (alookup b.listeners e).getD [] ++ [c]) := rfl

theorem invariant_subscribe {b : EventBus} (hinv : b.invariant)
    (e : EventId) (c : HandlerId) (p : Int) : (b.subscribe e c p).invariant := by
  constructor
  · intro kv hkv d hd
    rw [subscribe_priorities]
    by_cases hke : kv.1 = e
    · rw [hke] at hd
      rw [hke]
      rw [bucketOf_subscribe_self] at hd
      by_cases hdc : d = c
      · subst hdc
        rw [alookup_aupdate_self]
        rfl
      · have hdb : d ∈ b.bucketOf e := by
          by_cases hcb : c ∈ b.bucketOf e
          · rwa [if_pos hcb] at hd
          · rw [if_neg hcb] at hd
            rcases List.mem_append.mp hd with hd | hd
            · exact hd
            · exact absurd (List.mem_singleton.mp hd) hdc
        have hne : ((e, d) : EventId × HandlerId) ≠ (e, c) := by simp [hdc]
        rw [alookup_aupdate_ne _ _ hne]
        exact (invariant_iff hinv e d).mp hdb
    · have hne : ((kv.1, d) : EventId × HandlerId) ≠ (e, c) := by simp [hke]
      have hd' : d ∈ b.bucketOf kv.1 := by
        rwa [bucketOf_subscribe_ne _ _ _ hke] at hd
      have hkv' : kv ∈ b.listeners := by
        rw [subscribe_listeners] at hkv
        rcases mem_aupdate hkv with h | h
        · exact absurd (congrArg Prod.fst h) hke
        · exact h
      rw [alookup_aupdate_ne _ _ hne]
      exact hinv.1 kv hkv' d hd'
  · intro pq hpq
    rw [subscribe_priorities] at hpq
    rcases mem_aupdate hpq with h | h
    · rw [h]
      exact mem_bucketOf_subscribe_self b e c p
    · exact mem_bucketOf_subscribe b e c p (hinv.2 pq h)

theorem invariant_unsubscribe {b : EventBus} (hinv : b.invariant) (hnd : b.nodupBuckets)
    (e : EventId) (c : HandlerId) : (b.unsubscribe e c).invariant := by
  rcases hl : alookup b.listeners e with _ | bucket
  · rw [unsubscribe_none c hl]
    exact hinv
  · by_cases hg : bucket ≠ [] ∧ c ∈ bucket
    · rw [unsubscribe_pos hl hg]
      have hb : b.bucketOf e = bucket := by rw [EventBus.bucketOf, hl, Option.getD_some]
      constructor
      · intro kv hkv d hd
        by_cases hke : kv.1 = e
        · rw [hke] at hd
          rw [hke]
          rw [bucketOf_mk_update_self] at hd
          have hdc : d ≠ c := fun hdc => by
            subst hdc
            exact (hnd _ (alookup_mem hl)).not_mem_erase hd
          have hdb : d ∈ b.bucketOf e := hb ▸ List.mem_of_mem_erase hd
          have hne : ((e, d) : EventId × HandlerId) ≠ (e, c) := by simp [hdc]
          show (alookup (aerase b.priorities (e, c)) (e, d)).isSome
          rw [alookup_aerase_ne _ hne]
          exact (invariant_iff hinv e d).mp hdb
        · rw [bucketOf_mk_update_ne _ _ _ hke] at hd
          have hkv' : kv ∈ b.listeners := by
            rcases mem_aupdate hkv with h | h
            · exact absurd (congrArg Prod.fst h) hke
            · exact h
          have hne : ((kv.1, d) : EventId × HandlerId) ≠ (e, c) := by simp [hke]
          show (alookup (aerase b.priorities (e, c)) (kv.1, d)).isSome
          rw [alookup_aerase_ne _ hne]
          exact hinv.1 kv hkv' d hd
      · intro pq hpq
        have hkey : pq.1 ≠ (e, c) := mem_aerase_ne hpq
        have hold := hinv.2 pq (mem_of_mem_aerase hpq)
        by_cases hke : pq.1.1 = e
        · rw [hke]
          rw [bucketOf_mk_update_self]
          have hdc : pq.1.2 ≠ c := by
            intro h2
            apply hkey
            have : pq.1 = (pq.1.1, pq.1.2) := rfl
            rw [this, hke, h2]
          rw [hke, hb] at hold
          exact (List.mem_erase_of_ne hdc).mpr hold
        · rw [bucketOf_mk_update_ne _ _ _ hke]
          exact hold
    · rw [unsubscribe_neg hl hg]
      exact hinv

theorem invariant_applyOp {b : EventBus} (hinv : b.invariant) (hnd : b.nodupBuckets)
    (op : BusOp) : (applyOp b op).invariant ∧ (applyOp b op).nodupBuckets := by
  cases op with
  | sub e c p => exact ⟨invariant_subscribe hinv e c p, nodupBuckets_subscribe hnd e c p⟩
  | unsub e c => exact ⟨invariant_unsubscribe hinv hnd e c, nodupBuckets_unsubscribe hnd e c⟩

theorem invariant_foldl {ops : List BusOp} : ∀ {b : EventBus},
    b.invariant → b.nodupBuckets →
    (ops.foldl applyOp b).invariant ∧ (ops.foldl applyOp b).nodupBuckets := by
  induction ops with
  | nil => exact fun hinv hnd => ⟨hinv, hnd⟩
  | cons op rest ih =>
    intro b hinv hnd
    rcases invariant_applyOp hinv hnd op with ⟨h1, h2⟩
    exact ih h1 h2

theorem invariant_applyOps (ops : List BusOp) :
    (applyOps ops).invariant ∧ (applyOps ops).nodupBuckets :=
  invariant_foldl (by decide) (by decide)

theorem subFold_subs (ms : List (EventId × HandlerId × Int)) :
    ∀ (s : Subscriber) (b : EventBus),
    (ms.foldl subStep (s, b)).1.subs = s.subs ++ ms.map (fun m => (m.1, m.2.1)) := by
  induction ms with
  | nil => intro s b; simp
  | cons m rest ih =>
    intro s b
    rw [List.foldl_cons]
    show (rest.foldl subStep
      ({ s with subs := s.subs ++ [(m.1, m.2.1)] }, b.subscribe m.1 m.2.1 m.2.2)).1.subs = _
    rw [ih]
    simp

theorem subFold_mem (ms : List (EventId × HandlerId × Int)) :
    ∀ (s : Subscriber) (b : EventBus) {e : EventId} {d : HandlerId},
    d ∈ b.bucketOf e → d ∈ (ms.foldl subStep (s, b)).2.bucketOf e := by
  induction ms with
  | nil => intro s b e d h; exact h
  | cons m rest ih =>
    intro s b e d h
    rw [List.foldl_cons]
    exact ih _ _ (mem_bucketOf_subscribe _ _ _ _ h)

theorem subFold_nodup (ms : List (EventId × HandlerId × Int)) :
    ∀ (s : Subscriber) (b : EventBus), b.nodupBuckets →
    (ms.foldl subStep (s, b)).2.nodupBuckets := by
  induction ms with
  | nil => intro s b h; exact h
  | cons m rest ih =>
    intro s b h
    rw [List.foldl_cons]
    exact ih _ _ (nodupBuckets_subscribe h _ _ _)

theorem unsubFold_subset (L : List (EventId × HandlerId)) :
    ∀ (b : EventBus) {e : EventId} {d : HandlerId},
    d ∈ (L.foldl unsubStep b).bucketOf e → d ∈ b.bucketOf e := by
  induction L with
  | nil => intro b e d h; exact h
  | cons em rest ih =>
    intro b e d h
    rw [List.foldl_cons] at h
    exact mem_bucketOf_of_unsubscribe _ (ih _ h)

theorem unsubFold_nodup (L : List (EventId × HandlerId)) :
    ∀ (b : EventBus), b.nodupBuckets → (L.foldl unsubStep b).nodupBuckets := by
  induction L with
  | nil => intro b h; exact h
  | cons em rest ih =>
    intro b h
    rw [List.foldl_cons]
    exact ih _ (nodupBuckets_unsubscribe h _ _)

theorem unsubFold_removes (L : List (EventId × HandlerId)) :
    ∀ (b : EventBus), b.nodupBuckets →
    ∀ em ∈ L, em.2 ∉ (L.foldl unsubStep b).bucketOf em.1 := by
  induction L with
  | nil => intro b _ em hem; exact absurd hem (List.not_mem_nil _)
  | cons em' rest ih =>
    intro b hnd em hem
    rw [List.foldl_cons]
    rcases List.mem_cons.mp hem with hem | hem
    · subst hem
      intro hc
      exact not_mem_bucketOf_unsubscribe hnd em.1 em.2 (unsubFold_subset rest _ hc)
    · exact ih _ (nodupBuckets_unsubscribe hnd _ _) em hem

theorem unsubFold_keeps (L : List (EventId × HandlerId)) :
    ∀ (b : EventBus) {e : EventId} {d : HandlerId},
    (∀ em ∈ L, em ≠ (e, d)) → d ∈ b.bucketOf e → d ∈ (L.foldl unsubStep b).bucketOf e := by
  induction L with
  | nil => intro b e d _ h; exact h
  | cons em rest ih =>
    intro b e d hne h
    rw [List.foldl_cons]
    refine ih _ (fun em' hem' => hne em' (List.mem_cons_of_mem _ hem')) ?_
    have : d ≠ em.2 ∨ e ≠ em.1 := by
      by_cases h1 : d = em.2
      · by_cases h2 : e = em.1
        · exact absurd (Prod.ext h2.symm h1.symm) (hne em (List.mem_cons_self _ _))
        · exact .inr h2
      · exact .inl h1
    exact mem_bucketOf_unsubscribe _ this h

theorem defineEvents_ids (names : List String) : ∀ counter : Nat,
    ((defineEvents counter names).1.map EventType.event_id) =
      List.range' counter names.length := by
  induction names with
  | nil => intro counter; rfl
  | cons n rest ih =>
    intro counter
    rw [defineEvents]
    show EventType.event_id (defineEvent counter n).1 ::
      ((defineEvents (defineEvent counter n).2 rest).1.map EventType.event_id) = _
    rw [ih]
    rw [List.length_cons, List.range'_succ counter rest.length 1]
    rfl

/-- A concrete bus for witnesses: handlers 1 (priority 40) and 2
(priority 60) subscribed to event 5. -/
def busW : EventBus := (EventBus.init.subscribe 5 1 40).subscribe 5 2 60

/-- A concrete environment in which every handler returns ten times its
identity. -/
def envOkW : HandlerId → Nat → Except Nat Nat := fun c _ => .ok (c * 10)

/-- A concrete environment in which handler 1 raises exception 7 and the
others return their identity. -/
def envErrW : HandlerId → Nat → Except Nat Nat :=
  fun c _ => if c = 1 then .error 7 else .ok c

/-- A concrete environment in which handler 1 returns `None` and the others
return their identity. -/
def envOptW : HandlerId → Nat → Except Nat (Option Nat) :=
  fun c _ => if c = 1 then .ok none else .ok (some c)

/-- C1: for every event type, every pair of handlers subscribed at
priorities `p1 < p2`, and every dispatch strategy (broadcast,
broadcast_nothrow, send_one, send_any), the handler at `p1` is invoked
strictly before the handler at `p2`: the shared `_sort_listeners`
primitive returns handlers in ascending priority order, and every
strategy's invocation trace is an initial segment of that order. -/
theorem C1_priority_order {ε α β γ : Type} (env : HandlerId → α → Except ε β)
    (env2 : HandlerId → α → Except ε (Option γ)) (b : EventBus) (e : EventId)
    (name : String) (payload : α) (c1 c2 : HandlerId) (p1 p2 : Int)
    (hinv : b.invariant) (hc1 : c1 ∈ b.bucketOf e)
    (hp1 : alookup b.priorities (e, c1) = some p1)
    (hp2 : alookup b.priorities (e, c2) = some p2) (hlt : p1 < p2) :
    (∀ l, b.sort_listeners e = some l → l.Sorted prioLE) ∧
    invokedBefore ((b.broadcast env e payload).invoked) c1 c2 ∧
    invokedBefore ((b.broadcast_nothrow env e payload).invoked) c1 c2 ∧
    invokedBefore ((b.send_one env e name payload).invoked) c1 c2 ∧
    invokedBefore ((b.send_any env2 e payload).invoked) c1 c2 := by
  have base : ∀ pairs, b.sort_listeners e = some pairs →
      invokedBefore (pairs.map Prod.snd) c1 c2 := by
    intro pairs hs
    refine sorted_map_snd_before (sort_listeners_sorted hs)
      ((sort_listeners_mem hs).mpr ⟨hc1, hp1⟩) ?_ hlt
    intro q hq
    have h2 := ((sort_listeners_mem hs).mp hq).2
    rw [hp2] at h2
    exact (Option.some_inj.mp h2).symm
  refine ⟨fun l hs => sort_listeners_sorted hs, ?_, ?_, ?_, ?_⟩
  · rcases hl : alookup b.listeners e with _ | bucket
    · rw [broadcast_none hl]
      exact invokedBefore_nil c1 c2
    · rcases sort_listeners_of_invariant hinv hl with ⟨pairs, hs⟩
      rw [broadcast_eq_loop hs]
      rcases @broadcastLoop_invoked ε α β env payload pairs with ⟨t, ht⟩
      exact invokedBefore_of_eq_append ht (base pairs hs)
  · rcases hl : alookup b.listeners e with _ | bucket
    · rw [broadcast_nothrow_none hl]
      exact invokedBefore_nil c1 c2
    · rcases sort_listeners_of_invariant hinv hl with ⟨pairs, hs⟩
      rw [broadcast_nothrow_eq_loop hs]
      show invokedBefore ((nothrowLoop env payload pairs).2) c1 c2
      rw [nothrowLoop_eq]
      exact base pairs hs
  · rcases hsort : b.sort_listeners e with _ | pairs
    · rw [send_one_noListeners (.inl hsort)]
      exact invokedBefore_nil c1 c2
    · rcases pairs with _ | ⟨⟨p, c⟩, rest⟩
      · rw [send_one_noListeners (.inr hsort)]
        exact invokedBefore_nil c1 c2
      · rw [send_one_eq hsort]
        have hpre : ((p, c) :: rest).map Prod.snd = [c] ++ rest.map Prod.snd := by simp
        have hb := invokedBefore_of_eq_append hpre (base _ hsort)
        rcases henv : env c payload with ex | r <;> exact hb
  · rcases hl : alookup b.listeners e with _ | bucket
    · rw [send_any_none hl]
      exact invokedBefore_nil c1 c2
    · rcases sort_listeners_of_invariant hinv hl with ⟨pairs, hs⟩
      rw [send_any_eq_loop hs]
      rcases @sendAnyLoop_invoked ε α γ env2 payload pairs with ⟨t, ht⟩
      exact invokedBefore_of_eq_append ht (base pairs hs)

/-- C1 witness: on the concrete bus, with handler 1 at priority 40 and
handler 2 at priority 60, handler 1 runs strictly before handler 2. -/
theorem C1_priority_order_witness :
    busW.invariant ∧ 1 ∈ busW.bucketOf 5 ∧
    alookup busW.priorities (5, 1) = some 40 ∧
    alookup busW.priorities (5, 2) = some 60 ∧ (40 : Int) < 60 ∧
    invokedBefore ((busW.broadcast envOkW 5 0).invoked) 1 2 := by
  refine ⟨by decide, by decide, by decide, by decide, by decide, ?_⟩
  exact (C1_priority_order envOkW envOptW busW 5 "ev" 0 1 2 40 60
    (by decide) (by decide) (by decide) (by decide) (by decide)).2.1

/-- C2: on `broadcast`, a raising handler has its error logged and
propagated, with no later handler invoked; if no handler raises, the
result is the list of per-handler results in priority order, one per
handler. -/
theorem C2_broadcast_failfast {ε α β : Type} (env : HandlerId → α → Except ε β)
    (b : EventBus) (e : EventId) (payload : α) (pairs : List (Int × HandlerId))
    (hs : b.sort_listeners e = some pairs) :
    (∀ (l₁ : List (Int × HandlerId)) (p : Int) (c : HandlerId)
        (l₂ : List (Int × HandlerId)) (ex : ε),
      pairs = l₁ ++ (p, c) :: l₂ →
      (∀ pc ∈ l₁, ∃ r, env pc.2 payload = Except.ok r) →
      env c payload = Except.error ex →
      b.broadcast env e payload =
        ⟨.error (.handler ex), l₁.map Prod.snd ++ [c], [ex]⟩) ∧
    (∀ g : Int × HandlerId → β,
      (∀ pc ∈ pairs, env pc.2 payload = Except.ok (g pc)) →
      b.broadcast env e payload = ⟨.ok (pairs.map g), pairs.map Prod.snd, []⟩) := by
  constructor
  · intro l₁ p c l₂ ex hsplit h1 hc
    rw [broadcast_eq_loop hs, hsplit]
    exact broadcastLoop_error h1 hc
  · intro g hg
    rw [broadcast_eq_loop hs]
    exact broadcastLoop_ok g hg

/-- C2 witness: on the concrete bus, with handler 1 (priority 40) raising
error 7 and handler 2 (priority 60) well-behaved, `broadcast` logs and
propagates error 7 and never invokes handler 2; with both well-behaved it
returns both results in priority order. -/
theorem C2_broadcast_failfast_witness :
    busW.sort_listeners 5 = some [(40, 1), (60, 2)] ∧
    busW.broadcast envErrW 5 0 = ⟨.error (.handler 7), [1], [7]⟩ ∧
    busW.broadcast envOkW 5 0 = ⟨.ok [10, 20], [1, 2], []⟩ := by
  refine ⟨by decide, ?_, ?_⟩
  · exact (C2_broadcast_failfast envErrW busW 5 0 [(40, 1), (60, 2)] (by decide)).1
      [] 40 1 [(60, 2)] 7 rfl (by simp) (by decide)
  · exact (C2_broadcast_failfast envOkW busW 5 0 [(40, 1), (60, 2)] (by decide)).2
      (fun pc => pc.2 * 10) (by decide)

/-- C3: `broadcast_nothrow` invokes every registered handler in priority
order, never propagates a handler error, and returns one entry per
handler: `(error, true)` for a raising handler, `(result, false)` for a
returning one. -/
theorem C3_broadcast_nothrow_tolerant {ε α β : Type} (env : HandlerId → α → Except ε β)
    (b : EventBus) (e : EventId) (payload : α) (hinv : b.invariant) :
    (∀ ex : ε, nothrowEntry (β := β) (Except.error ex) = (.inl ex, true)) ∧
    (∀ r : β, nothrowEntry (ε := ε) (Except.ok r) = (.inr r, false)) ∧
    (alookup b.listeners e = none → b.broadcast_nothrow env e payload = ⟨.ok [], []⟩) ∧
    (∀ pairs, b.sort_listeners e = some pairs →
      b.broadcast_nothrow env e payload =
        ⟨.ok (pairs.map (fun pc => nothrowEntry (env pc.2 payload))),
          pairs.map Prod.snd⟩) ∧
    (∀ err, (b.broadcast_nothrow env e payload).out ≠ .error err) := by
  have hmain : ∀ pairs, b.sort_listeners e = some pairs →
      b.broadcast_nothrow env e payload =
        ⟨.ok (pairs.map (fun pc => nothrowEntry (env pc.2 payload))),
          pairs.map Prod.snd⟩ := by
    intro pairs hs
    rw [broadcast_nothrow_eq_loop hs, nothrowLoop_eq]
  refine ⟨fun ex => rfl, fun r => rfl, fun hl => broadcast_nothrow_none hl, hmain, ?_⟩
  intro err
  rcases hl : alookup b.listeners e with _ | bucket
  · rw [broadcast_nothrow_none hl]
    simp
  · rcases sort_listeners_of_invariant hinv hl with ⟨pairs, hs⟩
    rw [hmain pairs hs]
    simp

/-- C3 witness: on the concrete bus, with handler 1 raising error 7 and
handler 2 returning 2, `broadcast_nothrow` still runs both and returns the
captured error and the successful result, flagged `true` and `false`. -/
theorem C3_broadcast_nothrow_tolerant_witness :
    busW.sort_listeners 5 = some [(40, 1), (60, 2)] ∧
    busW.broadcast_nothrow envErrW 5 0 =
      ⟨.ok [(.inl 7, true), (.inr 2, false)], [1, 2]⟩ := by
  refine ⟨by decide, ?_⟩
  have h := (C3_broadcast_nothrow_tolerant envErrW busW 5 0 (by decide)).2.2.2.1
    [(40, 1), (60, 2)] (by decide)
  rw [h]
  decide

/-- C4: `send_one` fails with `NoListenersError` carrying the event's
display name exactly when the event has zero registered handlers
(including an unknown event identifier); otherwise it invokes only the
single highest-priority handler and returns its result (or propagates its
error). -/
theorem C4_send_one {ε α β : Type} (env : HandlerId → α → Except ε β)
    (b : EventBus) (e : EventId) (name : String) (payload : α) (hinv : b.invariant) :
    ((b.send_one env e name payload).out = .error (.noListeners name) ↔
      b.bucketOf e = []) ∧
    (b.bucketOf e = [] →
      b.send_one env e name payload = ⟨.error (.noListeners name), []⟩) ∧
    (∀ p c rest, b.sort_listeners e = some ((p, c) :: rest) →
      (b.send_one env e name payload).invoked = [c] ∧
      (∀ pc ∈ (p, c) :: rest, p ≤ pc.1) ∧
      (∀ r, env c payload = Except.ok r →
        (b.send_one env e name payload).out = .ok r) ∧
      (∀ ex, env c payload = Except.error ex →
        (b.send_one env e name payload).out = .error (.handler ex))) := by
  have hzero : b.bucketOf e = [] →
      b.send_one env e name payload = ⟨.error (.noListeners name), []⟩ := by
    intro hempty
    rcases hl : alookup b.listeners e with _ | bucket
    · exact send_one_noListeners (.inl (sort_listeners_none_eq hl))
    · have hb : bucket = [] := by
        rw [EventBus.bucketOf, hl, Option.getD_some] at hempty
        exact hempty
      subst hb
      refine send_one_noListeners (.inr ?_)
      rw [sort_listeners_some_eq hl]
      rfl
  refine ⟨⟨?_, fun hempty => by rw [hzero hempty]⟩, hzero, ?_⟩
  · intro hout
    rcases hsort : b.sort_listeners e with _ | pairs
    · rcases hl : alookup b.listeners e with _ | bucket
      · rw [EventBus.bucketOf, hl]
        rfl
      · rcases sort_listeners_of_invariant hinv hl with ⟨l, hsome⟩
        rw [hsome] at hsort
        exact absurd hsort (by simp)
    · rcases pairs with _ | ⟨⟨p, c⟩, rest⟩
      · exact sort_listeners_nil hsort
      · rw [send_one_eq hsort] at hout
        rcases henv : env c payload with ex | r <;> rw [henv] at hout <;> simp at hout
  · intro p c rest hsort
    refine ⟨?_, ?_, ?_, ?_⟩
    · rw [send_one_eq hsort]
      rcases henv : env c payload with ex | r <;> rfl
    · have hsorted := sort_listeners_sorted hsort
      intro pc hpc
      rcases List.mem_cons.mp hpc with hpc | hpc
      · rw [hpc]
      · exact (List.sorted_cons.mp hsorted).1 pc hpc
    · intro r hr
      rw [send_one_eq hsort, hr]
    · intro ex hex
      rw [send_one_eq hsort, hex]

/-- C4 witness: on the fresh bus, `send_one` for the unknown event 5 fails
with `NoListenersError` carrying the display name; on the concrete bus it
invokes only handler 1 (priority 40) and returns its result. -/
theorem C4_send_one_witness :
    EventBus.init.invariant ∧ EventBus.init.bucketOf 5 = [] ∧
    EventBus.init.send_one envOkW 5 "test-event" 0 =
      ⟨.error (.noListeners "test-event"), []⟩ ∧
    (busW.send_one envOkW 5 "test-event" 0).invoked = [1] ∧
    (busW.send_one envOkW 5 "test-event" 0).out = .ok 10 := by
  refine ⟨by decide, by decide, ?_, ?_, ?_⟩
  · exact (C4_send_one envOkW EventBus.init 5 "test-event" 0 (by decide)).2.1 (by decide)
  · exact ((C4_send_one envOkW busW 5 "test-event" 0 (by decide)).2.2
      40 1 [(60, 2)] (by decide)).1
  · exact ((C4_send_one envOkW busW 5 "test-event" 0 (by decide)).2.2
      40 1 [(60, 2)] (by decide)).2.2.1 10 (by decide)

/-- C5: `send_any` walks handlers in ascending priority order and returns
the first non-null result, invoking nothing after it; it returns null when
every handler returns null or the event has no handlers (including an
unknown identifier); a handler error is logged and propagated, stopping
iteration. -/
theorem C5_send_any {ε α β : Type} (env : HandlerId → α → Except ε (Option β))
    (b : EventBus) (e : EventId) (payload : α) :
    (alookup b.listeners e = none → b.send_any env e payload = ⟨.ok none, [], []⟩) ∧
    (∀ pairs, b.sort_listeners e = some pairs →
      (∀ (l₁ : List (Int × HandlerId)) (p : Int) (c : HandlerId)
          (l₂ : List (Int × HandlerId)) (r : β),
        pairs = l₁ ++ (p, c) :: l₂ →
        (∀ pc ∈ l₁, env pc.2 payload = Except.ok none) →
        env c payload = Except.ok (some r) →
        b.send_any env e payload = ⟨.ok (some r), l₁.map Prod.snd ++ [c], []⟩) ∧
      ((∀ pc ∈ pairs, env pc.2 payload = Except.ok none) →
        b.send_any env e payload = ⟨.ok none, pairs.map Prod.snd, []⟩) ∧
      (∀ (l₁ : List (Int × HandlerId)) (p : Int) (c : HandlerId)
          (l₂ : List (Int × HandlerId)) (ex : ε),
        pairs = l₁ ++ (p, c) :: l₂ →
        (∀ pc ∈ l₁, env pc.2 payload = Except.ok none) →
        env c payload = Except.error ex →
        b.send_any env e payload =
          ⟨.error (.handler ex), l₁.map Prod.snd ++ [c], [ex]⟩)) := by
  refine ⟨fun hl => send_any_none hl, fun pairs hs => ⟨?_, ?_, ?_⟩⟩
  · intro l₁ p c l₂ r hsplit h1 hc
    rw [send_any_eq_loop hs, hsplit]
    exact sendAnyLoop_found h1 hc
  · intro hall
    rw [send_any_eq_loop hs]
    exact sendAnyLoop_none hall
  · intro l₁ p c l₂ ex hsplit h1 hc
    rw [send_any_eq_loop hs, hsplit]
    exact sendAnyLoop_error h1 hc

/-- C5 witness: on the concrete bus, with handler 1 (priority 40)
returning `None` and handler 2 (priority 60) returning 2, `send_any`
returns 2 after invoking both in priority order; for the unknown event 9
it returns `None`. -/
theorem C5_send_any_witness :
    busW.sort_listeners 5 = some [(40, 1), (60, 2)] ∧
    busW.send_any envOptW 5 0 = ⟨.ok (some 2), [1, 2], []⟩ ∧
    busW.send_any envOptW 9 0 = ⟨.ok none, [], []⟩ := by
  refine ⟨by decide, ?_, ?_⟩
  · exact ((C5_send_any envOptW busW 5 0).2 [(40, 1), (60, 2)] (by decide)).1
      [(40, 1)] 60 2 [] 2 rfl (by decide) (by decide)
  · exact (C5_send_any envOptW busW 9 0).1 (by decide)

/-- C6: the claim says the three built-in lifecycle event types carry the
display names `on-start`, `on-started`, `on-exit`; in the source the type
named `OnStarted` instead carries the display name `on-stop`
(`events.py`, `name = 'on-stop'`), while the other two match. -/
theorem C6_lifecycle_names :
    OnStart_name = "on-start" ∧ OnStarted_name = "on-stop" ∧
    OnExit_name = "on-exit" ∧ OnStarted_name ≠ "on-started" := by
  refine ⟨rfl, rfl, rfl, ?_⟩
  decide

/-- The concrete lifecycle run for the C7 counterexample: a fresh bus, a
subscriber whose `on_start`/`on_exit` bound methods are handlers 1 and 2,
and one decorated member (handler 10 on event 5 at priority 50). -/
def lifecycleBusW : EventBus := Subscriber.lifecycle EventBus.init 1 2 [(5, 10, 50)]

/-- C7 counterexample: after the bus fires start then exit, the binder
instance does NOT have zero residual subscriptions — its own `on_start`
and `on_exit` handlers (subscribed at construction, never recorded) are
still registered; only the decorated member (handler 10) was removed. -/
theorem C7_counterexample :
    1 ∈ lifecycleBusW.bucketOf onStartId ∧ 2 ∈ lifecycleBusW.bucketOf onExitId ∧
    10 ∉ lifecycleBusW.bucketOf 5 := by
  decide

/-- C7 (amended): after the bus fires start then exit, every subscription
the binder recorded during `on_start` (its decorated members) is removed,
but the two lifecycle handlers subscribed at construction (`on_start` on
the start event, `on_exit` on the exit event) remain registered. -/
theorem C7_amended (b : EventBus) (hS hE : HandlerId)
    (members : List (EventId × HandlerId × Int)) (hnd : b.nodupBuckets)
    (hm : ∀ m ∈ members, (m.1, m.2.1) ≠ ((onStartId : EventId), hS) ∧
      (m.1, m.2.1) ≠ ((onExitId : EventId), hE)) :
    (∀ m ∈ members, m.2.1 ∉ (Subscriber.lifecycle b hS hE members).bucketOf m.1) ∧
    hS ∈ (Subscriber.lifecycle b hS hE members).bucketOf onStartId ∧
    hE ∈ (Subscriber.lifecycle b hS hE members).bucketOf onExitId := by
  have hlife : Subscriber.lifecycle b hS hE members =
      (members.foldl subStep (⟨hS, hE, members, []⟩,
          (b.subscribe onStartId hS 50).subscribe onExitId hE 50)).1.subs.foldl
        unsubStep
        (members.foldl subStep (⟨hS, hE, members, []⟩,
          (b.subscribe onStartId hS 50).subscribe onExitId hE 50)).2 := rfl
  have hsubs : (members.foldl subStep (⟨hS, hE, members, []⟩,
      (b.subscribe onStartId hS 50).subscribe onExitId hE 50)).1.subs =
      members.map (fun m => (m.1, m.2.1)) := by
    rw [subFold_subs]
    simp
  have hnd0 : ((b.subscribe onStartId hS 50).subscribe onExitId hE 50).nodupBuckets :=
    nodupBuckets_subscribe (nodupBuckets_subscribe hnd _ _ _) _ _ _
  have hnd1 : (members.foldl subStep (⟨hS, hE, members, []⟩,
      (b.subscribe onStartId hS 50).subscribe onExitId hE 50)).2.nodupBuckets :=
    subFold_nodup members _ _ hnd0
  rw [hlife, hsubs]
  refine ⟨?_, ?_, ?_⟩
  · intro m hmem
    exact unsubFold_removes (members.map (fun m => (m.1, m.2.1))) _ hnd1
      (m.1, m.2.1) (List.mem_map_of_mem _ hmem)
  · refine unsubFold_keeps _ _ ?_ ?_
    · intro em hem
      rcases List.mem_map.mp hem with ⟨m, hmem, hfm⟩
      rw [← hfm]
      exact (hm m hmem).1
    · exact subFold_mem members _ _
        (mem_bucketOf_subscribe _ onExitId hE 50
          (mem_bucketOf_subscribe_self b onStartId hS 50))
  · refine unsubFold_keeps _ _ ?_ ?_
    · intro em hem
      rcases List.mem_map.mp hem with ⟨m, hmem, hfm⟩
      rw [← hfm]
      exact (hm m hmem).2
    · exact subFold_mem members _ _
        (mem_bucketOf_subscribe_self _ onExitId hE 50)

/-- C7 witness: the amended property at the concrete lifecycle run — the
decorated member (handler 10 on event 5) is removed while the two
lifecycle handlers remain. -/
theorem C7_amended_witness :
    10 ∉ lifecycleBusW.bucketOf 5 ∧ 1 ∈ lifecycleBusW.bucketOf onStartId ∧
    2 ∈ lifecycleBusW.bucketOf onExitId := by
  have h := C7_amended EventBus.init 1 2 [(5, 10, 50)] (by decide) (by decide)
  exact ⟨h.1 (5, 10, 50) (List.mem_cons_self _ _), h.2.1, h.2.2⟩

/-- C8: every event-type definition draws a fresh identifier — a sequence
of definitions (with arbitrary, possibly repeated display names) yields
pairwise distinct identifiers, two successive definitions always differ,
and subscribing under one identifier never touches another identifier's
bucket. -/
theorem C8_fresh_ids :
    (∀ (counter : Nat) (names : List String),
      ((defineEvents counter names).1.map EventType.event_id).Nodup) ∧
    (∀ (counter : Nat) (n1 n2 : String),
      ((defineEvent counter n1).1).event_id ≠
        ((defineEvent (defineEvent counter n1).2 n2).1).event_id) ∧
    (∀ (b : EventBus) (e1 e2 : EventId) (c : HandlerId) (p : Int), e1 ≠ e2 →
      (b.subscribe e1 c p).bucketOf e2 = b.bucketOf e2) := by
  refine ⟨?_, ?_, ?_⟩
  · intro counter names
    rw [defineEvents_ids]
    exact List.nodup_range' counter names.length
  · intro counter n1 n2
    show counter ≠ counter + 1
    exact Nat.ne_of_lt (Nat.lt_succ_self counter)
  · intro b e1 e2 c p h
    exact bucketOf_subscribe_ne b c p (Ne.symm h)

/-- C8 witness: two definitions with the identical display name get
distinct identifiers, and subscribing to event 5 leaves event 6's bucket
unchanged. -/
theorem C8_fresh_ids_witness :
    ((defineEvent 0 "dup").1).event_id ≠
      ((defineEvent (defineEvent 0 "dup").2 "dup").1).event_id ∧
    (5 : EventId) ≠ 6 ∧
    (EventBus.init.subscribe 5 1 50).bucketOf 6 = EventBus.init.bucketOf 6 := by
  refine ⟨C8_fresh_ids.2.1 0 "dup" "dup", by decide, ?_⟩
  exact C8_fresh_ids.2.2 EventBus.init 5 6 1 50 (by decide)

/-- C9: `broadcast` on an event with zero subscribers — including an event
identifier entirely unknown to the registry — returns the empty result
list, invokes nothing, logs nothing, and raises no error. -/
theorem C9_broadcast_empty {ε α β : Type} (env : HandlerId → α → Except ε β)
    (b : EventBus) (e : EventId) (payload : α) (h : b.bucketOf e = []) :
    b.broadcast env e payload = ⟨.ok [], [], []⟩ := by
  rcases hl : alookup b.listeners e with _ | bucket
  · exact broadcast_none hl
  · have hb : bucket = [] := by
      rw [EventBus.bucketOf, hl, Option.getD_some] at h
      exact h
    subst hb
    have hs : b.sort_listeners e = some [] := by
      rw [sort_listeners_some_eq hl]
      rfl
    rw [broadcast_eq_loop hs]
    rfl

/-- C9 witness: on the fresh bus, broadcasting the unknown event 99 and
the known-but-empty start event both return the empty result list with no
error. -/
theorem C9_broadcast_empty_witness :
    EventBus.init.bucketOf 99 = [] ∧ EventBus.init.bucketOf onStartId = [] ∧
    EventBus.init.broadcast envOkW 99 0 = ⟨.ok [], [], []⟩ ∧
    EventBus.init.broadcast envOkW onStartId 0 = ⟨.ok [], [], []⟩ := by
  refine ⟨by decide, by decide, ?_, ?_⟩
  · exact C9_broadcast_empty envOkW EventBus.init 99 0 (by decide)
  · exact C9_broadcast_empty envOkW EventBus.init onStartId 0 (by decide)

/-- C10: the registry invariant — a callable is in an event's listener set
iff the `(event, callable)` pair has a recorded priority — holds for the
fresh bus, is kept by every subscribe and unsubscribe, holds on every bus
reachable through the public API, and consequently the priority lookup
done by `_sort_listeners` never fails for a registered event. -/
theorem C10_registry_invariant :
    EventBus.init.invariant ∧
    (∀ b : EventBus, b.invariant → b.nodupBuckets →
      ∀ (e : EventId) (c : HandlerId) (p : Int),
        (b.subscribe e c p).invariant ∧ (b.unsubscribe e c).invariant) ∧
    (∀ (ops : List BusOp) (e : EventId) (c : HandlerId),
      c ∈ (applyOps ops).bucketOf e ↔
        (alookup (applyOps ops).priorities (e, c)).isSome) ∧
    (∀ (ops : List BusOp) (e : EventId) (bucket : List HandlerId),
      alookup (applyOps ops).listeners e = some bucket →
      ∃ l, (applyOps ops).sort_listeners e = some l) := by
  refine ⟨by decide, ?_, ?_, ?_⟩
  · intro b hinv hnd e c p
    exact ⟨invariant_subscribe hinv e c p, invariant_unsubscribe hinv hnd e c⟩
  · intro ops e c
    exact invariant_iff (invariant_applyOps ops).1 e c
  · intro ops e bucket hl
    exact sort_listeners_of_invariant (invariant_applyOps ops).1 hl

/-- C10 witness: the invariant is kept when subscribing on the concrete
bus, and sorting succeeds for the registered event 5 after one subscribe
operation. -/
theorem C10_registry_invariant_witness :
    busW.invariant ∧ (busW.subscribe 7 9 50).invariant ∧
    (1 ∈ (applyOps [BusOp.sub 5 1 40]).bucketOf 5 ↔
      (alookup (applyOps [BusOp.sub 5 1 40]).priorities (5, 1)).isSome) ∧
    (∃ l, (applyOps [BusOp.sub 5 1 40]).sort_listeners 5 = some l) := by
  refine ⟨by decide, ?_, ?_, ?_⟩
  · exact (C10_registry_invariant.2.1 busW (by decide) (by decide) 7 9 50).1
  · exact C10_registry_invariant.2.2.1 [BusOp.sub 5 1 40] 5 1
  · exact C10_registry_invariant.2.2.2 [BusOp.sub 5 1 40] 5 [1] (by decide)
